import Mathlib

/-!
Verification of the braille ASCII-image renderer (`src/main.rs`).

The definitions below are a shallow embedding of the Rust source:
pixels are 4-tuples of byte channel values, images are a width, a height
and a pixel lookup function, and the per-pixel rules, braille encoder and
renderer are translated function by function.  Machine integers (`u8`,
`u32`, `i32`) are modelled by `Nat`/`Int`; none of the arithmetic in the
translated code paths can overflow at its machine width for the bounded
byte/coordinate values the program handles.
-/

/-- One pixel: the four RGBA channel byte values (`Rgba<u8>` in the source,
which is what `DynamicImage::get_pixel` always yields). -/
structure Rgba where
  r : Nat
  g : Nat
  b : Nat
  a : Nat
deriving DecidableEq, Repr

/-- The channel list `px.0` of an `Rgba<u8>` pixel, in channel order. -/
def channels (p : Rgba) : List Nat := [p.r, p.g, p.b, p.a]

/-- The channel list after `to_rgb()`: alpha dropped. -/
def rgbChannels (p : Rgba) : List Nat := [p.r, p.g, p.b]

/-- A decoded image: dimensions plus bounds-unaware pixel lookup
(the lookup is only ever used behind an `in_bounds` guard, as in the
source). -/
structure Image where
  width : Nat
  height : Nat
  pixel : Nat → Nat → Rgba

/-- `GenericImageView::in_bounds(x, y)`: `x < width && y < height`. -/
def Image.in_bounds (img : Image) (x y : Nat) : Bool :=
  decide (x < img.width) && decide (y < img.height)

/-- `const OFF_0: u32 = 0x2800`, the blank braille code point. -/
def OFF_0 : Nat := 0x2800

/-- The fixed offset array `[(0,0),(1,0),(2,0),(0,1),(1,1),(2,1),(3,0),(3,1)]`
of `(dy, dx)` pairs from `region_braille`. -/
def brailleOffsets : List (Nat × Nat) :=
  [(0, 0), (1, 0), (2, 0), (0, 1), (1, 1), (2, 1), (3, 0), (3, 1)]

/-- `region_braille(x, y, f)`: map each offset to the absolute sample point
`(y*4 + dy, x*2 + dx)`, turn sample `i` into `(f(v).unwrap_or(false) as u8) << i`,
and add the results to `OFF_0`. -/
def region_braille (x y : Nat) (f : Nat × Nat → Option Bool) : Nat :=
  OFF_0 +
    (((brailleOffsets.map (fun p => (y * 4 + p.1, x * 2 + p.2))).enum).map
      (fun q => Nat.shiftLeft (if (f q.2).getD false then 1 else 0) q.1)).sum

/-- The `OnOffRule` enum: `PxThreshold(i32)`, `InvertedPxThreshold(i32)`,
`Border(i32, i32)`. -/
inductive OnOffRule where
  | PxThreshold : Int → OnOffRule
  | InvertedPxThreshold : Int → OnOffRule
  | Border : Int → Int → OnOffRule
deriving DecidableEq, Repr

/-- `absdiff(a, b)` on byte values. -/
def absdiff (a b : Nat) : Nat := if a > b then a - b else b - a

/-- `.iter().map(|&v| v as i32).sum::<i32>()` over a channel list. -/
def sumChannels (l : List Nat) : Int := (l.map (fun v => (v : Int))).sum

/-- `.max().unwrap_or(0)` over an `i32` iterator. -/
def iterMax : List Int → Int
  | [] => 0
  | h :: t => t.foldl max h

/-- The step range `1..=distance` of the `Border` rule (empty when
`distance <= 0`, as for the Rust `RangeInclusive` over `i32`). -/
def borderSteps (d : Int) : List Int :=
  (List.range d.toNat).map (fun (k : Nat) => ((k : Int) + 1))

/-- The direction array `[(-1, 0), (1, 0), (0, -1), (0, 1)]` of `(dx, dy)`
pairs from the `Border` rule. -/
def cardinalDirs : List (Int × Int) := [(-1, 0), (1, 0), (0, -1), (0, 1)]

/-- `cartesian_product` of the directions with `1..=distance`, mapped to
the scaled offsets `(dx*d, dy*d)`. -/
def borderOffsets (d : Int) : List (Int × Int) :=
  cardinalDirs.flatMap (fun p => (borderSteps d).map (fun k => (p.1 * k, p.2 * k)))

/-- `u32::try_from(i).unwrap_or(0)`: a negative `i32` turns into coordinate 0. -/
def clampToU32 (i : Int) : Nat := if i < 0 then 0 else i.toNat

/-- The per-channel max absolute difference of two pixels, exactly as the
source computes it: zip the channel lists, `absdiff` each pair as `i32`,
then `.max().unwrap_or(0)`. -/
def maxChannelDiff (npx px : Rgba) : Int :=
  iterMax (((channels npx).zip (channels px)).map (fun p => (absdiff p.1 p.2 : Int)))

/-- `OnOffRule::is_on(&self, img, x, y)`. -/
def OnOffRule.is_on (r : OnOffRule) (img : Image) (x y : Nat) : Bool :=
  if !(img.in_bounds x y) then false
  else
    match r with
    | OnOffRule.PxThreshold t =>
        decide (t ≤ sumChannels (channels (img.pixel x y)))
    | OnOffRule.InvertedPxThreshold t =>
        decide (sumChannels (rgbChannels (img.pixel x y)) ≤ t)
    | OnOffRule.Border t d =>
        let px := img.pixel x y
        (borderOffsets d).any (fun off =>
          let nx := clampToU32 ((x : Int) + off.1)
          let ny := clampToU32 ((y : Int) + off.2)
          if !(img.in_bounds nx ny) then false
          else decide (t ≤ maxChannelDiff (img.pixel nx ny) px))

/- Helper lemmas about the braille encoder. -/

theorem shiftTerm_eq (o : Option Bool) (i : Nat) :
    Nat.shiftLeft (if o.getD false then 1 else 0) i =
      if o = some true then 2 ^ i else 0 := by
  cases o with
  | none => simp [Nat.shiftLeft_eq]
  | some b =>
    cases b <;> simp [Nat.shiftLeft_eq]

/-- Unfolded form of `region_braille`: the base plus one power-of-two term
per sampled offset. -/
theorem region_braille_eq_bits (x y : Nat) (f : Nat × Nat → Option Bool) :
    region_braille x y f =
      0x2800 +
        ((if f (y * 4, x * 2) = some true then 2 ^ 0 else 0) +
         ((if f (y * 4 + 1, x * 2) = some true then 2 ^ 1 else 0) +
          ((if f (y * 4 + 2, x * 2) = some true then 2 ^ 2 else 0) +
           ((if f (y * 4, x * 2 + 1) = some true then 2 ^ 3 else 0) +
            ((if f (y * 4 + 1, x * 2 + 1) = some true then 2 ^ 4 else 0) +
             ((if f (y * 4 + 2, x * 2 + 1) = some true then 2 ^ 5 else 0) +
              ((if f (y * 4 + 3, x * 2) = some true then 2 ^ 6 else 0) +
               (if f (y * 4 + 3, x * 2 + 1) = some true then 2 ^ 7 else 0)))))))) := by
  show OFF_0 +
      (Nat.shiftLeft (if (f (y * 4 + 0, x * 2 + 0)).getD false then 1 else 0) 0 +
       (Nat.shiftLeft (if (f (y * 4 + 1, x * 2 + 0)).getD false then 1 else 0) 1 +
        (Nat.shiftLeft (if (f (y * 4 + 2, x * 2 + 0)).getD false then 1 else 0) 2 +
         (Nat.shiftLeft (if (f (y * 4 + 0, x * 2 + 1)).getD false then 1 else 0) 3 +
          (Nat.shiftLeft (if (f (y * 4 + 1, x * 2 + 1)).getD false then 1 else 0) 4 +
           (Nat.shiftLeft (if (f (y * 4 + 2, x * 2 + 1)).getD false then 1 else 0) 5 +
            (Nat.shiftLeft (if (f (y * 4 + 3, x * 2 + 0)).getD false then 1 else 0) 6 +
             (Nat.shiftLeft (if (f (y * 4 + 3, x * 2 + 1)).getD false then 1 else 0) 7 +
              0)))))))) = _
  simp only [shiftTerm_eq, Nat.add_zero, OFF_0]

/-- Claim C1: for every cell coordinate `(x, y)` and every sampling
function `f`, `region_braille x y f` equals `0x2800` plus the sum over bit
indices `i` of `2^i` exactly when the sample at the fixed offset for bit
`i` (taken relative to the cell's top-left pixel `(y*4, x*2)`) is
`some true`; a `none` sample contributes 0. -/
theorem region_braille_bit_formula (x y : Nat) (f : Nat × Nat → Option Bool) :
    region_braille x y f =
      0x2800 +
        (if f (y * 4, x * 2) = some true then 2 ^ 0 else 0) +
        (if f (y * 4 + 1, x * 2) = some true then 2 ^ 1 else 0) +
        (if f (y * 4 + 2, x * 2) = some true then 2 ^ 2 else 0) +
        (if f (y * 4, x * 2 + 1) = some true then 2 ^ 3 else 0) +
        (if f (y * 4 + 1, x * 2 + 1) = some true then 2 ^ 4 else 0) +
        (if f (y * 4 + 2, x * 2 + 1) = some true then 2 ^ 5 else 0) +
        (if f (y * 4 + 3, x * 2) = some true then 2 ^ 6 else 0) +
        (if f (y * 4 + 3, x * 2 + 1) = some true then 2 ^ 7 else 0) := by
  rw [region_braille_eq_bits]
  ring

/-- Claim C7: the encoder's result always lies in `[0x2800, 0x28FF]` and is
a valid Unicode scalar value, so `char::from_u32(...).unwrap()` in the
renderer never fails. -/
theorem region_braille_range (x y : Nat) (f : Nat × Nat → Option Bool) :
    0x2800 ≤ region_braille x y f ∧ region_braille x y f ≤ 0x28FF ∧
      Nat.isValidChar (region_braille x y f) := by
  have h := region_braille_eq_bits x y f
  have h0 : (if f (y * 4, x * 2) = some true then 2 ^ 0 else 0) ≤ 2 ^ 0 := by
    split <;> norm_num
  have h1 : (if f (y * 4 + 1, x * 2) = some true then 2 ^ 1 else 0) ≤ 2 ^ 1 := by
    split <;> norm_num
  have h2 : (if f (y * 4 + 2, x * 2) = some true then 2 ^ 2 else 0) ≤ 2 ^ 2 := by
    split <;> norm_num
  have h3 : (if f (y * 4, x * 2 + 1) = some true then 2 ^ 3 else 0) ≤ 2 ^ 3 := by
    split <;> norm_num
  have h4 : (if f (y * 4 + 1, x * 2 + 1) = some true then 2 ^ 4 else 0) ≤ 2 ^ 4 := by
    split <;> norm_num
  have h5 : (if f (y * 4 + 2, x * 2 + 1) = some true then 2 ^ 5 else 0) ≤ 2 ^ 5 := by
    split <;> norm_num
  have h6 : (if f (y * 4 + 3, x * 2) = some true then 2 ^ 6 else 0) ≤ 2 ^ 6 := by
    split <;> norm_num
  have h7 : (if f (y * 4 + 3, x * 2 + 1) = some true then 2 ^ 7 else 0) ≤ 2 ^ 7 := by
    split <;> norm_num
  refine ⟨?_, ?_, ?_⟩
  · rw [h]; omega
  · rw [h]; norm_num at h0 h1 h2 h3 h4 h5 h6 h7 ⊢; omega
  · constructor
    rw [h]; norm_num at h0 h1 h2 h3 h4 h5 h6 h7 ⊢; omega

/- Concrete images used by the witness theorems. -/

/-- A 1-by-1 test image whose only pixel is `(9, 9, 9, 9)`. -/
def testImg : Image := ⟨1, 1, fun _ _ => ⟨9, 9, 9, 9⟩⟩

/-- A 1-by-1 test image whose only pixel is `(9, 9, 9, 0)`: it differs from
`testImg` only in the alpha channel. -/
def testImgAlpha : Image := ⟨1, 1, fun _ _ => ⟨9, 9, 9, 0⟩⟩

/-- Claim C2: for every rule variant, every image and every out-of-bounds
coordinate, `is_on` returns `false`. -/
theorem is_on_out_of_bounds (r : OnOffRule) (img : Image) (x y : Nat)
    (h : img.in_bounds x y = false) : r.is_on img x y = false := by
  unfold OnOffRule.is_on
  rw [h]
  rfl

/-- Witness for C2 at a concrete out-of-bounds coordinate. -/
theorem is_on_out_of_bounds_witness :
    testImg.in_bounds 5 0 = false ∧
      (OnOffRule.PxThreshold 0).is_on testImg 5 0 = false :=
  ⟨by decide, is_on_out_of_bounds (OnOffRule.PxThreshold 0) testImg 5 0 (by decide)⟩

/-- Claim C8: in bounds, `Threshold(t)` is on exactly when the signed sum of
all four channel bytes is at least `t`, and the result is monotone in the
channel sum. -/
theorem threshold_iff_sum_ge (img : Image) (x y : Nat) (t : Int)
    (hx : x < img.width) (hy : y < img.height) :
    ((OnOffRule.PxThreshold t).is_on img x y = true ↔
        t ≤ sumChannels (channels (img.pixel x y))) ∧
      (∀ img2 x2 y2, x2 < img2.width → y2 < img2.height →
        sumChannels (channels (img.pixel x y)) ≤
            sumChannels (channels (img2.pixel x2 y2)) →
        (OnOffRule.PxThreshold t).is_on img x y = true →
        (OnOffRule.PxThreshold t).is_on img2 x2 y2 = true) := by
  have hb : img.in_bounds x y = true := by
    simp [Image.in_bounds, hx, hy]
  have hiff : (OnOffRule.PxThreshold t).is_on img x y = true ↔
      t ≤ sumChannels (channels (img.pixel x y)) := by
    unfold OnOffRule.is_on
    rw [hb]
    simp
  refine ⟨hiff, ?_⟩
  intro img2 x2 y2 hx2 hy2 hsum hon
  have hb2 : img2.in_bounds x2 y2 = true := by
    simp [Image.in_bounds, hx2, hy2]
  have ht : t ≤ sumChannels (channels (img.pixel x y)) := hiff.mp hon
  unfold OnOffRule.is_on
  rw [hb2]
  simp only [Bool.not_true, Bool.false_eq_true, if_false, decide_eq_true_eq]
  omega

/-- Witness for C8 at the concrete `testImg`, threshold 36 (= 9+9+9+9). -/
theorem threshold_iff_sum_ge_witness :
    ((OnOffRule.PxThreshold 36).is_on testImg 0 0 = true ↔
        (36 : Int) ≤ sumChannels (channels (testImg.pixel 0 0))) ∧
      (OnOffRule.PxThreshold 36).is_on testImg 0 0 = true :=
  ⟨(threshold_iff_sum_ge testImg 0 0 36 (by decide) (by decide)).1,
   (threshold_iff_sum_ge testImg 0 0 36 (by decide) (by decide)).2
     testImg 0 0 (by decide) (by decide) (by decide) (by decide)⟩

/-- Claim C9: in bounds, `InvertedThreshold(t)` is on exactly when the sum of
the three RGB channel bytes is at most `t`, and the result is independent of
the alpha channel. -/
theorem inverted_threshold_iff_rgb_sum_le (img : Image) (x y : Nat) (t : Int)
    (hx : x < img.width) (hy : y < img.height) :
    ((OnOffRule.InvertedPxThreshold t).is_on img x y = true ↔
        sumChannels (rgbChannels (img.pixel x y)) ≤ t) ∧
      (∀ img2 x2 y2, x2 < img2.width → y2 < img2.height →
        (img2.pixel x2 y2).r = (img.pixel x y).r →
        (img2.pixel x2 y2).g = (img.pixel x y).g →
        (img2.pixel x2 y2).b = (img.pixel x y).b →
        (OnOffRule.InvertedPxThreshold t).is_on img2 x2 y2 =
          (OnOffRule.InvertedPxThreshold t).is_on img x y) := by
  have hb : img.in_bounds x y = true := by
    simp [Image.in_bounds, hx, hy]
  have hiff : (OnOffRule.InvertedPxThreshold t).is_on img x y = true ↔
      sumChannels (rgbChannels (img.pixel x y)) ≤ t := by
    unfold OnOffRule.is_on
    rw [hb]
    simp
  refine ⟨hiff, ?_⟩
  intro img2 x2 y2 hx2 hy2 hr hg hbch
  have hb2 : img2.in_bounds x2 y2 = true := by
    simp [Image.in_bounds, hx2, hy2]
  unfold OnOffRule.is_on
  rw [hb, hb2]
  simp only [Bool.not_true, Bool.false_eq_true, if_false]
  congr 1
  simp [sumChannels, rgbChannels, hr, hg, hbch]

/-- Witness for C9: `testImg` and `testImgAlpha` differ only in alpha and
evaluate identically under `InvertedThreshold(27)`. -/
theorem inverted_threshold_iff_rgb_sum_le_witness :
    ((OnOffRule.InvertedPxThreshold 27).is_on testImg 0 0 = true ↔
        sumChannels (rgbChannels (testImg.pixel 0 0)) ≤ 27) ∧
      (OnOffRule.InvertedPxThreshold 27).is_on testImgAlpha 0 0 =
        (OnOffRule.InvertedPxThreshold 27).is_on testImg 0 0 :=
  ⟨(inverted_threshold_iff_rgb_sum_le testImg 0 0 27 (by decide) (by decide)).1,
   (inverted_threshold_iff_rgb_sum_le testImg 0 0 27 (by decide) (by decide)).2
     testImgAlpha 0 0 (by decide) (by decide) rfl rfl rfl⟩

/- The Border rule. -/

/-- Spec-level reformulation of the per-channel maximum absolute
difference: the maximum over all four channels (alpha included) of the
absolute channel difference. -/
def chanMaxDiff (q p : Rgba) : Int :=
  max (max (max ((absdiff q.r p.r : Int)) ((absdiff q.g p.g : Int)))
        ((absdiff q.b p.b : Int)))
    ((absdiff q.a p.a : Int))

theorem maxChannelDiff_eq_chanMaxDiff (q p : Rgba) :
    maxChannelDiff q p = chanMaxDiff q p := rfl

/-- Spec-level description of the `Border(t, d)` rule at an in-bounds
coordinate, following the claim's wording: some cardinal direction and some
step `k` in `1..=d` reach a neighbor (negative components clamped to 0
before the bounds check) that is in bounds and whose maximal channel
difference from the center pixel is at least `t`. -/
def borderSpec (img : Image) (t d : Int) (x y : Nat) : Prop :=
  ∃ p ∈ cardinalDirs, ∃ k : Int, 1 ≤ k ∧ k ≤ d ∧
    clampToU32 ((x : Int) + p.1 * k) < img.width ∧
    clampToU32 ((y : Int) + p.2 * k) < img.height ∧
    t ≤ chanMaxDiff
          (img.pixel (clampToU32 ((x : Int) + p.1 * k))
            (clampToU32 ((y : Int) + p.2 * k)))
          (img.pixel x y)

theorem mem_borderSteps (d k : Int) : k ∈ borderSteps d ↔ 1 ≤ k ∧ k ≤ d := by
  unfold borderSteps
  rw [List.mem_map]
  constructor
  · rintro ⟨j, hj, rfl⟩
    rw [List.mem_range] at hj
    omega
  · rintro ⟨h1, h2⟩
    exact ⟨(k - 1).toNat, List.mem_range.mpr (by omega), by omega⟩

theorem mem_borderOffsets (d : Int) (off : Int × Int) :
    off ∈ borderOffsets d ↔
      ∃ p ∈ cardinalDirs, ∃ k : Int, (1 ≤ k ∧ k ≤ d) ∧ off = (p.1 * k, p.2 * k) := by
  simp only [borderOffsets, List.mem_flatMap, List.mem_map]
  constructor
  · rintro ⟨p, hp, k, hk, rfl⟩
    exact ⟨p, hp, k, (mem_borderSteps d k).mp hk, rfl⟩
  · rintro ⟨p, hp, k, hk, rfl⟩
    exact ⟨p, hp, k, (mem_borderSteps d k).mpr hk, rfl⟩

/-- Claim C3: in bounds, `Border(t, d).is_on` is true exactly when some
cardinal direction and step `k ≤ d` reach a neighbor — negative components
clamped to 0 before the bounds check — that is in bounds and whose maximal
per-channel absolute difference from the center pixel is at least `t`. -/
theorem border_iff_spec (img : Image) (t d : Int) (x y : Nat)
    (hx : x < img.width) (hy : y < img.height) :
    (OnOffRule.Border t d).is_on img x y = true ↔ borderSpec img t d x y := by
  have hb : img.in_bounds x y = true := by
    simp [Image.in_bounds, hx, hy]
  unfold OnOffRule.is_on
  rw [hb]
  simp only [Bool.not_true, Bool.false_eq_true, if_false]
  rw [List.any_eq_true]
  constructor
  · rintro ⟨off, hmem, hoff⟩
    rcases (mem_borderOffsets d off).mp hmem with ⟨p, hp, k, ⟨h1, h2⟩, rfl⟩
    simp only at hoff
    by_cases hnb : img.in_bounds (clampToU32 ((x : Int) + p.1 * k))
        (clampToU32 ((y : Int) + p.2 * k)) = true
    · rw [hnb] at hoff
      simp only [Bool.not_true, Bool.false_eq_true, if_false,
        decide_eq_true_eq] at hoff
      have hw : clampToU32 ((x : Int) + p.1 * k) < img.width ∧
          clampToU32 ((y : Int) + p.2 * k) < img.height := by
        have := hnb
        simp [Image.in_bounds] at this
        exact this
      exact ⟨p, hp, k, h1, h2, hw.1, hw.2,
        le_of_le_of_eq hoff (maxChannelDiff_eq_chanMaxDiff _ _)⟩
    · rw [Bool.not_eq_true] at hnb
      rw [hnb] at hoff
      simp at hoff
  · rintro ⟨p, hp, k, h1, h2, hw, hh, hdiff⟩
    refine ⟨(p.1 * k, p.2 * k), (mem_borderOffsets d _).mpr ⟨p, hp, k, ⟨h1, h2⟩, rfl⟩, ?_⟩
    have hnb : img.in_bounds (clampToU32 ((x : Int) + p.1 * k))
        (clampToU32 ((y : Int) + p.2 * k)) = true := by
      simp [Image.in_bounds, hw, hh]
    simp only [hnb, Bool.not_true, Bool.false_eq_true, if_false,
      decide_eq_true_eq]
    rw [maxChannelDiff_eq_chanMaxDiff]
    exact hdiff

/-- A 2-by-1 image of uniform color `(7, 7, 7, 7)`. -/
def uniformImg : Image := ⟨2, 1, fun _ _ => ⟨7, 7, 7, 7⟩⟩

/-- Witness for C3 at the concrete `uniformImg` with `Border(1, 1)` at the
in-bounds pixel `(0, 0)`. -/
theorem border_iff_spec_witness :
    (OnOffRule.Border 1 1).is_on uniformImg 0 0 = true ↔
      borderSpec uniformImg 1 1 0 0 :=
  border_iff_spec uniformImg 1 1 0 0 (by decide) (by decide)

/-- Counterexample to claim C4 as stated: on the uniform-color `uniformImg`
(every pixel `(7,7,7,7)`), `Border(0, 1)` reports the in-bounds pixel
`(0, 0)` as on, because the maximal channel difference 0 satisfies
`df >= threshold` when the threshold is 0. -/
theorem border_uniform_counterexample :
    (OnOffRule.Border 0 1).is_on uniformImg 0 0 = true := by decide

theorem maxChannelDiff_self (p : Rgba) : maxChannelDiff p p = 0 := by
  simp [maxChannelDiff, channels, absdiff, iterMax]

/-- Claim C4 (amended): at every in-bounds pixel, `Border(t, d)` is off
whenever the distance admits no steps (`d = 0`), and on an image of uniform
color it is off whenever the threshold is positive (`1 ≤ t`); a threshold
`t ≤ 0` makes the zero channel difference pass the `df >= t` comparison, so
the uniform-color part needs the positivity restriction. -/
theorem border_no_steps_or_uniform_off (img : Image) (t d : Int) (x y : Nat)
    (hx : x < img.width) (hy : y < img.height) :
    (d = 0 → (OnOffRule.Border t d).is_on img x y = false) ∧
      ((∀ x2 y2, img.pixel x2 y2 = img.pixel 0 0) → 1 ≤ t →
        (OnOffRule.Border t d).is_on img x y = false) := by
  have hb : img.in_bounds x y = true := by
    simp [Image.in_bounds, hx, hy]
  constructor
  · rintro rfl
    unfold OnOffRule.is_on
    rw [hb]
    rfl
  · intro huni ht
    unfold OnOffRule.is_on
    rw [hb]
    simp only [Bool.not_true, Bool.false_eq_true, if_false]
    rw [List.any_eq_false]
    intro off hmem hoff
    by_cases hnb : img.in_bounds (clampToU32 ((x : Int) + off.1))
        (clampToU32 ((y : Int) + off.2)) = true
    · rw [hnb] at hoff
      simp only [Bool.not_true, Bool.false_eq_true, if_false,
        decide_eq_true_eq] at hoff
      rw [huni (clampToU32 ((x : Int) + off.1)) (clampToU32 ((y : Int) + off.2)),
        huni x y, maxChannelDiff_self] at hoff
      omega
    · rw [Bool.not_eq_true] at hnb
      rw [hnb] at hoff
      simp at hoff

/-- Witness for the amended C4 at the concrete `uniformImg` with a positive
threshold. -/
theorem border_no_steps_or_uniform_off_witness :
    (OnOffRule.Border 1 1).is_on uniformImg 0 0 = false :=
  (border_no_steps_or_uniform_off uniformImg 1 1 0 0 (by decide) (by decide)).2
    (fun _ _ => rfl) (by norm_num)

/- The renderer (`main`). -/

/-- The boolean matrix `mat`: a row per `y` in `0..height`, a column per
`x` in `0..width`, each entry `rl.is_on(&img, x, y)` (the rayon
parallelism is pure and order-independent, so a plain map models it). -/
def pixelMatrix (img : Image) (rl : OnOffRule) : List (List Bool) :=
  (List.range img.height).map (fun y =>
    (List.range img.width).map (fun x => rl.is_on img x y))

/-- The sampling closure passed to `region_braille` in `main`: the argument
pair is `(y, x)` = (pixel row, pixel column); out of bounds gives `None`,
otherwise `Some(mat[y][x])`. -/
def cellSample (img : Image) (mat : List (List Bool)) : Nat × Nat → Option Bool :=
  fun p =>
    if !(img.in_bounds p.2 p.1) then none
    else some ((mat.getD p.1 []).getD p.2 false)

/-- The grid of braille code points `main` prints: one row per cell row
index in `0..=height/4`, one entry per cell column index in `0..=width/2`. -/
def renderLines (img : Image) (rl : OnOffRule) : List (List Nat) :=
  (List.range (img.height / 4 + 1)).map (fun cy =>
    (List.range (img.width / 2 + 1)).map (fun cx =>
      region_braille cx cy (cellSample img (pixelMatrix img rl))))

/-- The full character stream `main` prints: each cell row's characters
followed by the line break from `println!`.  `Char.ofNat` models
`std::char::from_u32(v).unwrap()`; the two agree because every emitted
code point is a valid scalar value. -/
def renderOutput (img : Image) (rl : OnOffRule) : List Char :=
  (renderLines img rl).flatMap (fun line => line.map Char.ofNat ++ [Char.ofNat 10])

theorem getD_map_range {α : Type} (n i : Nat) (f : Nat → α) (d : α) (h : i < n) :
    ((List.range n).map f).getD i d = f i := by
  rw [List.getD_eq_getElem?_getD, List.getElem?_map, List.getElem?_range h]
  rfl

/-- The sampling closure of `main` agrees with direct rule evaluation:
in-bounds positions sample `is_on`, everything else is absent. -/
theorem cellSample_eq_is_on (img : Image) (rl : OnOffRule) :
    cellSample img (pixelMatrix img rl) = fun p =>
      if p.2 < img.width ∧ p.1 < img.height then some (rl.is_on img p.2 p.1)
      else none := by
  funext p
  unfold cellSample
  by_cases hb : p.2 < img.width ∧ p.1 < img.height
  · have hbb : img.in_bounds p.2 p.1 = true := by
      simp [Image.in_bounds, hb.1, hb.2]
    rw [hbb, if_pos hb]
    simp only [Bool.not_true, Bool.false_eq_true, if_false, Option.some.injEq]
    unfold pixelMatrix
    rw [getD_map_range img.height p.1 _ _ hb.2, getD_map_range img.width p.2 _ _ hb.1]
  · have hbb : img.in_bounds p.2 p.1 = false := by
      simp [Image.in_bounds]
      omega
    rw [hbb, if_neg hb]
    rfl

/-- Claim C6: the renderer emits exactly `height/4 + 1` rows of
`width/2 + 1` braille code points (both ranges inclusive), each cell being
`region_braille` over the rule evaluations with positions past the image
edge sampled as absent, and each row becoming one output line. -/
theorem render_shape (img : Image) (rl : OnOffRule) :
    (renderLines img rl).length = img.height / 4 + 1 ∧
      (∀ line ∈ renderLines img rl, line.length = img.width / 2 + 1) ∧
      (∀ cy cx, cy ≤ img.height / 4 → cx ≤ img.width / 2 →
        ((renderLines img rl).getD cy []).getD cx 0 =
          region_braille cx cy (fun p =>
            if p.2 < img.width ∧ p.1 < img.height
            then some (rl.is_on img p.2 p.1) else none)) := by
  refine ⟨?_, ?_, ?_⟩
  · simp [renderLines]
  · intro line hline
    unfold renderLines at hline
    rw [List.mem_map] at hline
    obtain ⟨cy, _, rfl⟩ := hline
    simp
  · intro cy cx hcy hcx
    unfold renderLines
    rw [getD_map_range _ cy _ _ (by omega), getD_map_range _ cx _ _ (by omega),
      cellSample_eq_is_on]

/-- Witness for C6 at the concrete `uniformImg`, cell `(0, 0)`. -/
theorem render_shape_witness :
    ((renderLines uniformImg (OnOffRule.PxThreshold 0)).getD 0 []).getD 0 0 =
      region_braille 0 0 (fun p =>
        if p.2 < uniformImg.width ∧ p.1 < uniformImg.height
        then some ((OnOffRule.PxThreshold 0).is_on uniformImg p.2 p.1)
        else none) :=
  (render_shape uniformImg (OnOffRule.PxThreshold 0)).2.2 0 0 (by decide) (by decide)

/-- An image of constant pixel color. -/
def constImage (w h : Nat) (p : Rgba) : Image := ⟨w, h, fun _ _ => p⟩

theorem constImage_width (w h : Nat) (p : Rgba) : (constImage w h p).width = w := rfl

theorem constImage_height (w h : Nat) (p : Rgba) : (constImage w h p).height = h := rfl

theorem constImage_in_bounds (w h : Nat) (p : Rgba) (x y : Nat) :
    (constImage w h p).in_bounds x y = (decide (x < w) && decide (y < h)) := rfl

/-- Counterexample to claim C5 as stated: for a 2-by-4 image of one
uniform color under `Threshold(0)`, the program's output is NOT the single
glyph `0x28FF` plus a line break — the inclusive cell ranges `0..=1` in
both directions emit two lines of two characters. -/
theorem render_2x4_counterexample :
    renderOutput (constImage 2 4 ⟨0, 0, 0, 255⟩) (OnOffRule.PxThreshold 0) ≠
      [Char.ofNat 0x28FF, Char.ofNat 10] := by decide

theorem sumChannels_nonneg (q : Rgba) : 0 ≤ sumChannels (channels q) := by
  simp [sumChannels, channels]
  positivity

/-- Claim C5 (amended): for a 2-by-4 image with all pixels identical under
`Threshold(0)`, every pixel evaluates to on, and the output is two lines
of two characters each: the glyph `0x28FF` followed by the blank glyph
`0x2800` and a line break, then two blank glyphs and a line break (the
extra blank row and column come from the renderer's inclusive cell
ranges). -/
theorem render_2x4_uniform (p : Rgba) :
    (∀ x y, x < 2 → y < 4 →
        (OnOffRule.PxThreshold 0).is_on (constImage 2 4 p) x y = true) ∧
      renderOutput (constImage 2 4 p) (OnOffRule.PxThreshold 0) =
        [Char.ofNat 0x28FF, Char.ofNat 0x2800, Char.ofNat 10,
         Char.ofNat 0x2800, Char.ofNat 0x2800, Char.ofNat 10] := by
  have hOn : ∀ x y, (OnOffRule.PxThreshold 0).is_on (constImage 2 4 p) x y =
      (constImage 2 4 p).in_bounds x y := by
    intro x y
    unfold OnOffRule.is_on
    by_cases hb : (constImage 2 4 p).in_bounds x y = true
    · rw [hb]
      simp only [Bool.not_true, Bool.false_eq_true, if_false,
        decide_eq_true_eq]
      exact sumChannels_nonneg _
    · rw [Bool.not_eq_true] at hb
      rw [hb]
      rfl
  constructor
  · intro x y hx hy
    rw [hOn]
    simp [constImage, Image.in_bounds, hx, hy]
  · simp only [renderOutput, renderLines, cellSample_eq_is_on, hOn,
      constImage_width, constImage_height, constImage_in_bounds]
    decide

/-- Witness for the amended C5 at a concrete uniform 2-by-4 image. -/
theorem render_2x4_uniform_witness :
    (OnOffRule.PxThreshold 0).is_on (constImage 2 4 ⟨3, 3, 3, 3⟩) 1 3 = true ∧
      renderOutput (constImage 2 4 ⟨3, 3, 3, 3⟩) (OnOffRule.PxThreshold 0) =
        [Char.ofNat 0x28FF, Char.ofNat 0x2800, Char.ofNat 10,
         Char.ofNat 0x2800, Char.ofNat 0x2800, Char.ofNat 10] :=
  ⟨(render_2x4_uniform ⟨3, 3, 3, 3⟩).1 1 3 (by decide) (by decide),
   (render_2x4_uniform ⟨3, 3, 3, 3⟩).2⟩

/- The rule parser (`OnOffRule::from_str`).  The three anchored regular
expressions are modelled by explicit string decomposition over `List Char`:
`^Threshold\((\d+)\)$` matches exactly the strings of the literal head,
a nonempty digit group, and a closing parenthesis, and similarly for the
other two formats. -/

/-- Strip a literal head from a string: `some` of the remainder when the
head is present, `none` otherwise. -/
def dropPre : List Char → List Char → Option (List Char)
  | [], s => some s
  | _ :: _, [] => none
  | c :: ps, d :: s => if c = d then dropPre ps s else none

/-- Strip the final closing parenthesis: `some` of the remainder when the
string ends in `')'`, `none` otherwise. -/
def stripParen : List Char → Option (List Char)
  | [] => none
  | [c] => if c = ')' then some [] else none
  | c :: c2 :: rest => (stripParen (c2 :: rest)).map (fun r => c :: r)

/-- The code point ranges of the Unicode decimal-digit category `Nd`
(Unicode 14.0).  The source's regex crate compiles character classes in
Unicode mode by default, so its `\d` matches exactly `\p{Nd}`, not just
the ASCII digits. -/
def ndRanges : List (Nat × Nat) :=
  [(0x30, 0x39), (0x660, 0x669), (0x6F0, 0x6F9), (0x7C0, 0x7C9),
   (0x966, 0x96F), (0x9E6, 0x9EF), (0xA66, 0xA6F), (0xAE6, 0xAEF),
   (0xB66, 0xB6F), (0xBE6, 0xBEF), (0xC66, 0xC6F), (0xCE6, 0xCEF),
   (0xD66, 0xD6F), (0xDE6, 0xDEF), (0xE50, 0xE59), (0xED0, 0xED9),
   (0xF20, 0xF29), (0x1040, 0x1049), (0x1090, 0x1099), (0x17E0, 0x17E9),
   (0x1810, 0x1819), (0x1946, 0x194F), (0x19D0, 0x19D9), (0x1A80, 0x1A89),
   (0x1A90, 0x1A99), (0x1B50, 0x1B59), (0x1BB0, 0x1BB9), (0x1C40, 0x1C49),
   (0x1C50, 0x1C59), (0xA620, 0xA629), (0xA8D0, 0xA8D9), (0xA900, 0xA909),
   (0xA9D0, 0xA9D9), (0xA9F0, 0xA9F9), (0xAA50, 0xAA59), (0xABF0, 0xABF9),
   (0xFF10, 0xFF19), (0x104A0, 0x104A9), (0x10D30, 0x10D39),
   (0x11066, 0x1106F), (0x110F0, 0x110F9), (0x11136, 0x1113F),
   (0x111D0, 0x111D9), (0x112F0, 0x112F9), (0x11450, 0x11459),
   (0x114D0, 0x114D9), (0x11650, 0x11659), (0x116C0, 0x116C9),
   (0x11730, 0x11739), (0x118E0, 0x118E9), (0x11950, 0x11959),
   (0x11C50, 0x11C59), (0x11D50, 0x11D59), (0x11DA0, 0x11DA9),
   (0x16A60, 0x16A69), (0x16AC0, 0x16AC9), (0x16B50, 0x16B59),
   (0x1D7CE, 0x1D7FF), (0x1E140, 0x1E149), (0x1E2F0, 0x1E2F9),
   (0x1E950, 0x1E959), (0x1FBF0, 0x1FBF9)]

/-- Membership in `\p{Nd}`: what the regex class `\d` matches. -/
def isNdDigit (c : Char) : Bool :=
  ndRanges.any (fun r => decide (r.1 ≤ c.toNat) && decide (c.toNat ≤ r.2))

/-- A nonempty string of Unicode decimal digits: what the group `(\d+)`
can capture. -/
def isDigits (l : List Char) : Bool := !l.isEmpty && l.all (fun c => isNdDigit c)

/-- A string of ASCII digits `0-9`: the only digits `i32::from_str`
accepts. -/
def isAsciiDigits (l : List Char) : Bool := l.all (fun c => c.isDigit)

/-- Split at the first comma. -/
def splitAtComma : List Char → Option (List Char × List Char)
  | [] => none
  | c :: rest =>
    if c = ',' then some ([], rest)
    else (splitAtComma rest).map (fun q => (c :: q.1, q.2))

/-- The numeric value of a digit string. -/
def digitsToNat (l : List Char) : Nat :=
  l.foldl (fun acc c => acc * 10 + (c.toNat - 48)) 0

/-- `i32::from_str` on a captured `\d+` group: the numeric value when the
group is nonempty, consists of ASCII digits only, and fits in `i32`;
`none` (a `ParseIntError`) when a non-ASCII Unicode digit appears
(`InvalidDigit`) or the value overflows. -/
def parseI32 (l : List Char) : Option Int :=
  if l ≠ [] ∧ isAsciiDigits l = true ∧ digitsToNat l ≤ 2147483647
  then some ((digitsToNat l : Int)) else none

/-- Match `^<pre>(\d+)\)$`-style formats: the literal head `pre` (which
includes the opening parenthesis), one nonempty Unicode digit group,
`')'`. -/
def matchArg (pre s : List Char) : Option (List Char) :=
  (dropPre pre s).bind (fun rest =>
    (stripParen rest).bind (fun mid =>
      if isDigits mid then some mid else none))

/-- Match the `^Border\((\d+),(\d+)\)$` format: literal head, digit group,
comma, digit group, `')'`. -/
def matchArgs2 (pre s : List Char) : Option (List Char × List Char) :=
  (dropPre pre s).bind (fun rest =>
    (stripParen rest).bind (fun mid =>
      (splitAtComma mid).bind (fun q =>
        if isDigits q.1 && isDigits q.2 then some q else none)))

/-- The `OnOffRuleParseError` enum: `ParseIntError` and
`UnknownFormat(String)` carrying the offending string. -/
inductive OnOffRuleParseError where
  | parseIntError : OnOffRuleParseError
  | unknownFormat : List Char → OnOffRuleParseError
deriving DecidableEq, Repr

def thresholdPre : List Char := "Threshold(".toList

def invertedPre : List Char := "InvertedThreshold(".toList

def borderPre : List Char := "Border(".toList

/-- `OnOffRule::from_str`: try the three anchored formats in order, parse
the captured digit groups as `i32`, and report `UnknownFormat` with the
offending string when nothing matches. -/
def from_str (s : List Char) : Except OnOffRuleParseError OnOffRule :=
  match matchArg thresholdPre s with
  | some ds =>
    match parseI32 ds with
    | some n => Except.ok (OnOffRule.PxThreshold n)
    | none => Except.error OnOffRuleParseError.parseIntError
  | none =>
    match matchArg invertedPre s with
    | some ds =>
      match parseI32 ds with
      | some n => Except.ok (OnOffRule.InvertedPxThreshold n)
      | none => Except.error OnOffRuleParseError.parseIntError
    | none =>
      match matchArgs2 borderPre s with
      | some q =>
        match parseI32 q.1, parseI32 q.2 with
        | some n1, some n2 => Except.ok (OnOffRule.Border n1 n2)
        | _, _ => Except.error OnOffRuleParseError.parseIntError
      | none => Except.error (OnOffRuleParseError.unknownFormat s)

theorem dropPre_eq_some_iff (pre s r : List Char) :
    dropPre pre s = some r ↔ s = pre ++ r := by
  induction pre generalizing s with
  | nil =>
    simp only [dropPre, Option.some.injEq, List.nil_append]
  | cons c ps ih =>
    cases s with
    | nil => simp [dropPre]
    | cons d t =>
      by_cases h : c = d
      · subst h
        simp [dropPre, ih]
      · show (if c = d then dropPre ps t else none) = some r ↔ _
        rw [if_neg h]
        constructor
        · intro hfalse
          cases hfalse
        · intro hr
          rw [List.cons_append] at hr
          injection hr with h1 h2
          exact absurd h1.symm h

theorem stripParen_eq_some_iff (s r : List Char) :
    stripParen s = some r ↔ s = r ++ [')'] := by
  induction s generalizing r with
  | nil =>
    constructor
    · intro hfalse
      cases hfalse
    · intro h
      exact absurd h (by simp)
  | cons c t ih =>
    cases t with
    | nil =>
      constructor
      · intro hsome
        unfold stripParen at hsome
        split at hsome
        · next hc =>
          subst hc
          injection hsome with h1
          rw [← h1]
          rfl
        · cases hsome
      · intro hr
        cases r with
        | nil =>
          injection hr with h1 h2
          subst h1
          rfl
        | cons a u =>
          rw [List.cons_append] at hr
          injection hr with h1 h2
          exact absurd h2.symm (by simp)
    | cons c2 rest =>
      show (stripParen (c2 :: rest)).map (fun r => c :: r) = some r ↔ _
      rw [Option.map_eq_some']
      constructor
      · rintro ⟨a, ha, rfl⟩
        rw [(ih a).mp ha]
        rfl
      · intro hr
        cases r with
        | nil =>
          injection hr with h1 h2
          exact absurd h2.symm (by simp)
        | cons b u =>
          rw [List.cons_append] at hr
          injection hr with h1 h2
          subst h1
          exact ⟨u, (ih u).mpr h2, rfl⟩

theorem splitAtComma_eq_some_iff (l : List Char) (q : List Char × List Char) :
    splitAtComma l = some q ↔ l = q.1 ++ ',' :: q.2 ∧ ',' ∉ q.1 := by
  induction l generalizing q with
  | nil =>
    constructor
    · intro hfalse
      cases hfalse
    · rintro ⟨h, -⟩
      exact absurd h (by simp)
  | cons c t ih =>
    by_cases h : c = ','
    · subst h
      show (if (',' : Char) = ',' then some (([] : List Char), t)
          else (splitAtComma t).map (fun q => (',' :: q.1, q.2))) = some q ↔ _
      rw [if_pos rfl]
      constructor
      · intro hsome
        injection hsome with h1
        rw [← h1]
        exact ⟨rfl, by simp⟩
      · rintro ⟨heq, hnm⟩
        obtain ⟨q1, q2⟩ := q
        cases q1 with
        | nil =>
          simp only [List.nil_append] at heq
          injection heq with h1 h2
          rw [h2]
        | cons a u =>
          rw [List.cons_append] at heq
          injection heq with h1 h2
          rw [← h1] at hnm
          simp at hnm
    · show (if c = ',' then some (([] : List Char), t)
          else (splitAtComma t).map (fun q => (c :: q.1, q.2))) = some q ↔ _
      rw [if_neg h, Option.map_eq_some']
      constructor
      · rintro ⟨a, ha, rfl⟩
        obtain ⟨heq, hnm⟩ := (ih a).mp ha
        refine ⟨by rw [heq]; rfl, ?_⟩
        simp only [List.mem_cons, not_or]
        exact ⟨fun hc => h hc.symm, hnm⟩
      · rintro ⟨heq, hnm⟩
        obtain ⟨q1, q2⟩ := q
        cases q1 with
        | nil =>
          simp only [List.nil_append] at heq
          injection heq with h1 h2
          exact absurd h1 h
        | cons a u =>
          rw [List.cons_append] at heq
          injection heq with h1 h2
          subst h1
          simp only [List.mem_cons, not_or] at hnm
          exact ⟨(u, q2), (ih (u, q2)).mpr ⟨h2, hnm.2⟩, rfl⟩

theorem matchArg_eq_some_iff (pre s ds : List Char) :
    matchArg pre s = some ds ↔
      s = pre ++ (ds ++ [')']) ∧ isDigits ds = true := by
  unfold matchArg
  rw [Option.bind_eq_some]
  constructor
  · rintro ⟨rest, hrest, hmid⟩
    rw [Option.bind_eq_some] at hmid
    obtain ⟨mid, hmid2, hif⟩ := hmid
    by_cases hd : isDigits mid = true
    · rw [if_pos hd] at hif
      injection hif with h1
      subst h1
      refine ⟨?_, hd⟩
      rw [(dropPre_eq_some_iff pre s rest).mp hrest,
        (stripParen_eq_some_iff rest mid).mp hmid2]
    · rw [if_neg hd] at hif
      cases hif
  · rintro ⟨rfl, hd⟩
    refine ⟨ds ++ [')'], (dropPre_eq_some_iff _ _ _).mpr rfl, ?_⟩
    rw [Option.bind_eq_some]
    exact ⟨ds, (stripParen_eq_some_iff _ _).mpr rfl, by rw [if_pos hd]⟩

theorem isDigits_ne_nil (l : List Char) (h : isDigits l = true) : l ≠ [] := by
  intro hnil
  subst hnil
  simp [isDigits] at h

theorem isDigits_no_comma (l : List Char) (h : isDigits l = true) : ',' ∉ l := by
  intro hmem
  unfold isDigits at h
  rw [Bool.and_eq_true] at h
  have h2 := List.all_eq_true.mp h.2 ',' hmem
  exact absurd h2 (by decide)

theorem matchArgs2_eq_some_iff (pre s : List Char) (q : List Char × List Char) :
    matchArgs2 pre s = some q ↔
      s = pre ++ ((q.1 ++ ',' :: q.2) ++ [')']) ∧
        isDigits q.1 = true ∧ isDigits q.2 = true := by
  unfold matchArgs2
  rw [Option.bind_eq_some]
  constructor
  · rintro ⟨rest, hrest, hmid⟩
    rw [Option.bind_eq_some] at hmid
    obtain ⟨mid, hmid2, hsplit⟩ := hmid
    rw [Option.bind_eq_some] at hsplit
    obtain ⟨q2, hq2, hif⟩ := hsplit
    by_cases hd : (isDigits q2.1 && isDigits q2.2) = true
    · rw [if_pos hd] at hif
      injection hif with h1
      subst h1
      rw [Bool.and_eq_true] at hd
      obtain ⟨hsp, -⟩ := (splitAtComma_eq_some_iff mid q2).mp hq2
      refine ⟨?_, hd.1, hd.2⟩
      rw [(dropPre_eq_some_iff pre s rest).mp hrest,
        (stripParen_eq_some_iff rest mid).mp hmid2, hsp]
    · rw [if_neg hd] at hif
      cases hif
  · rintro ⟨rfl, hd1, hd2⟩
    refine ⟨(q.1 ++ ',' :: q.2) ++ [')'], (dropPre_eq_some_iff _ _ _).mpr rfl, ?_⟩
    rw [Option.bind_eq_some]
    refine ⟨q.1 ++ ',' :: q.2, (stripParen_eq_some_iff _ _).mpr rfl, ?_⟩
    rw [Option.bind_eq_some]
    refine ⟨q, (splitAtComma_eq_some_iff _ _).mpr ⟨rfl, isDigits_no_comma _ hd1⟩, ?_⟩
    rw [if_pos (by rw [Bool.and_eq_true]; exact ⟨hd1, hd2⟩)]

theorem heads_ne_append (c d : Char) (hcd : c ≠ d) (t1 t2 u1 u2 : List Char) :
    c :: t1 ++ u1 ≠ d :: t2 ++ u2 := by
  intro h
  rw [List.cons_append, List.cons_append] at h
  injection h with h1
  exact hcd h1

/-- The `Threshold(<digits>)` format, anchored: the whole string is the
literal head, a nonempty digit group `ds`, and the closing parenthesis. -/
def ThresholdForm (s ds : List Char) : Prop :=
  s = thresholdPre ++ (ds ++ [')']) ∧ isDigits ds = true

/-- The `InvertedThreshold(<digits>)` format, anchored. -/
def InvertedForm (s ds : List Char) : Prop :=
  s = invertedPre ++ (ds ++ [')']) ∧ isDigits ds = true

/-- The `Border(<digits>,<digits>)` format, anchored. -/
def BorderForm (s a b : List Char) : Prop :=
  s = borderPre ++ ((a ++ ',' :: b) ++ [')']) ∧
    isDigits a = true ∧ isDigits b = true

/-- Claim C10: parsing a rule string succeeds exactly for the three
anchored formats `Threshold(<digits>)`, `InvertedThreshold(<digits>)` and
`Border(<digits>,<digits>)` with `<digits>` a nonempty `\d+` group of
Unicode decimal digits; a recognized format parses to the rule when its
digit groups are ASCII and fit in `i32`, and fails with the numeric parse
error when a group overflows or cannot be parsed as a number (a non-ASCII
digit); any other input fails with the unknown-format error carrying the
offending string. -/
theorem from_str_characterization (s : List Char) :
    (∀ ds, ThresholdForm s ds →
        from_str s = (if isAsciiDigits ds = true ∧ digitsToNat ds ≤ 2147483647
          then Except.ok (OnOffRule.PxThreshold ((digitsToNat ds : Int)))
          else Except.error OnOffRuleParseError.parseIntError)) ∧
      (∀ ds, InvertedForm s ds →
        from_str s = (if isAsciiDigits ds = true ∧ digitsToNat ds ≤ 2147483647
          then Except.ok (OnOffRule.InvertedPxThreshold ((digitsToNat ds : Int)))
          else Except.error OnOffRuleParseError.parseIntError)) ∧
      (∀ a b, BorderForm s a b →
        from_str s = (if (isAsciiDigits a = true ∧ digitsToNat a ≤ 2147483647) ∧
            (isAsciiDigits b = true ∧ digitsToNat b ≤ 2147483647)
          then Except.ok
            (OnOffRule.Border ((digitsToNat a : Int)) ((digitsToNat b : Int)))
          else Except.error OnOffRuleParseError.parseIntError)) ∧
      ((¬ ∃ ds, ThresholdForm s ds) → (¬ ∃ ds, InvertedForm s ds) →
        (¬ ∃ a b, BorderForm s a b) →
        from_str s = Except.error (OnOffRuleParseError.unknownFormat s)) := by
  have hiT : ∀ ds, InvertedForm s ds → matchArg thresholdPre s = none := by
    intro ds hform
    cases hmt : matchArg thresholdPre s with
    | none => rfl
    | some ds2 =>
      obtain ⟨heq, -⟩ := (matchArg_eq_some_iff _ _ _).mp hmt
      rw [hform.1,
        show invertedPre = 'I' :: "nvertedThreshold(".toList from rfl,
        show thresholdPre = 'T' :: "hreshold(".toList from rfl] at heq
      exact absurd heq (heads_ne_append 'I' 'T' (by decide) _ _ _ _)
  have hbT : ∀ a b, BorderForm s a b → matchArg thresholdPre s = none := by
    intro a b hform
    cases hmt : matchArg thresholdPre s with
    | none => rfl
    | some ds2 =>
      obtain ⟨heq, -⟩ := (matchArg_eq_some_iff _ _ _).mp hmt
      rw [hform.1,
        show borderPre = 'B' :: "order(".toList from rfl,
        show thresholdPre = 'T' :: "hreshold(".toList from rfl] at heq
      exact absurd heq (heads_ne_append 'B' 'T' (by decide) _ _ _ _)
  have hbI : ∀ a b, BorderForm s a b → matchArg invertedPre s = none := by
    intro a b hform
    cases hmt : matchArg invertedPre s with
    | none => rfl
    | some ds2 =>
      obtain ⟨heq, -⟩ := (matchArg_eq_some_iff _ _ _).mp hmt
      rw [hform.1,
        show borderPre = 'B' :: "order(".toList from rfl,
        show invertedPre = 'I' :: "nvertedThreshold(".toList from rfl] at heq
      exact absurd heq (heads_ne_append 'B' 'I' (by decide) _ _ _ _)
  refine ⟨?_, ?_, ?_, ?_⟩
  · intro ds hform
    have hm := (matchArg_eq_some_iff thresholdPre s ds).mpr hform
    have hne := isDigits_ne_nil ds hform.2
    simp only [from_str, hm, parseI32]
    by_cases hle : isAsciiDigits ds = true ∧ digitsToNat ds ≤ 2147483647
    · rw [if_pos (show ds ≠ [] ∧ isAsciiDigits ds = true ∧
          digitsToNat ds ≤ 2147483647 from ⟨hne, hle.1, hle.2⟩), if_pos hle]
    · rw [if_neg (show ¬(ds ≠ [] ∧ isAsciiDigits ds = true ∧
          digitsToNat ds ≤ 2147483647) from fun hA => hle ⟨hA.2.1, hA.2.2⟩),
        if_neg hle]
  · intro ds hform
    have hm := (matchArg_eq_some_iff invertedPre s ds).mpr hform
    have hne := isDigits_ne_nil ds hform.2
    simp only [from_str, hiT ds hform, hm, parseI32]
    by_cases hle : isAsciiDigits ds = true ∧ digitsToNat ds ≤ 2147483647
    · rw [if_pos (show ds ≠ [] ∧ isAsciiDigits ds = true ∧
          digitsToNat ds ≤ 2147483647 from ⟨hne, hle.1, hle.2⟩), if_pos hle]
    · rw [if_neg (show ¬(ds ≠ [] ∧ isAsciiDigits ds = true ∧
          digitsToNat ds ≤ 2147483647) from fun hA => hle ⟨hA.2.1, hA.2.2⟩),
        if_neg hle]
  · intro a b hform
    have hm := (matchArgs2_eq_some_iff borderPre s (a, b)).mpr hform
    have hnea := isDigits_ne_nil a hform.2.1
    have hneb := isDigits_ne_nil b hform.2.2
    simp only [from_str, hbT a b hform, hbI a b hform, hm, parseI32]
    by_cases h1 : isAsciiDigits a = true ∧ digitsToNat a ≤ 2147483647
    · by_cases h2 : isAsciiDigits b = true ∧ digitsToNat b ≤ 2147483647
      · rw [if_pos (show a ≠ [] ∧ isAsciiDigits a = true ∧
            digitsToNat a ≤ 2147483647 from ⟨hnea, h1.1, h1.2⟩),
          if_pos (show b ≠ [] ∧ isAsciiDigits b = true ∧
            digitsToNat b ≤ 2147483647 from ⟨hneb, h2.1, h2.2⟩),
          if_pos (And.intro h1 h2)]
      · rw [if_pos (show a ≠ [] ∧ isAsciiDigits a = true ∧
            digitsToNat a ≤ 2147483647 from ⟨hnea, h1.1, h1.2⟩),
          if_neg (show ¬(b ≠ [] ∧ isAsciiDigits b = true ∧
            digitsToNat b ≤ 2147483647) from fun hA => h2 ⟨hA.2.1, hA.2.2⟩),
          if_neg (show ¬((isAsciiDigits a = true ∧ digitsToNat a ≤ 2147483647) ∧
            (isAsciiDigits b = true ∧ digitsToNat b ≤ 2147483647))
            from fun hc => h2 hc.2)]
    · rw [if_neg (show ¬(a ≠ [] ∧ isAsciiDigits a = true ∧
          digitsToNat a ≤ 2147483647) from fun hA => h1 ⟨hA.2.1, hA.2.2⟩),
        if_neg (show ¬((isAsciiDigits a = true ∧ digitsToNat a ≤ 2147483647) ∧
          (isAsciiDigits b = true ∧ digitsToNat b ≤ 2147483647))
          from fun hc => h1 hc.1)]
  · intro hnT hnI hnB
    have h1 : matchArg thresholdPre s = none := by
      cases hmt : matchArg thresholdPre s with
      | none => rfl
      | some ds2 =>
        exact absurd ⟨ds2, (matchArg_eq_some_iff _ _ _).mp hmt⟩ hnT
    have h2 : matchArg invertedPre s = none := by
      cases hmt : matchArg invertedPre s with
      | none => rfl
      | some ds2 =>
        exact absurd ⟨ds2, (matchArg_eq_some_iff _ _ _).mp hmt⟩ hnI
    have h3 : matchArgs2 borderPre s = none := by
      cases hmt : matchArgs2 borderPre s with
      | none => rfl
      | some q =>
        exact absurd ⟨q.1, q.2, (matchArgs2_eq_some_iff _ _ _).mp hmt⟩ hnB
    simp only [from_str, h1, h2, h3]

/-- Witness for C10: the concrete string `Threshold(5)` parses to the
threshold rule with parameter 5. -/
theorem from_str_characterization_witness :
    from_str ("Threshold(5)".toList) = Except.ok (OnOffRule.PxThreshold 5) := by
  have h := (from_str_characterization ("Threshold(5)".toList)).1 ['5']
    ⟨by decide, by decide⟩
  exact h.trans (by rfl)
